import Mathlib

/-!
Formal model of the page-selection and output-naming core of a PDF to
PNG/SVG converter, translated from the Rust source (`src/utils.rs` and
`src/main.rs`).  Pure string and list manipulation is modelled exactly;
the external PDF renderer and the filesystem are abstracted as opaque
parameters, a document is represented by its page count, and numeric
attribute values in SVG markup are modelled over `ℚ` on the exact
decimal fragment where `f32` arithmetic is exact.
-/

namespace PdfConverter

/-- Error value carrying a tag and a human readable message, mirroring
the `AppError` struct of `main.rs`. -/
structure AppError where
  tag : String
  message : String
  deriving DecidableEq, Repr

/-- Remove consecutive duplicate elements, as Rust `Vec::dedup`. -/
def dedupAdj : List Nat → List Nat
  | [] => []
  | [a] => [a]
  | a :: b :: rest =>
    if a = b then dedupAdj (b :: rest) else a :: dedupAdj (b :: rest)

/-- Ascending sort followed by adjacent deduplication, modelling the
source's `sort_unstable` followed by `dedup`.  On natural numbers every
ascending sort of a list produces the same list, so `insertionSort` is
an exact model of `sort_unstable`. -/
def sortDedupRust (l : List Nat) : List Nat :=
  dedupAdj (l.insertionSort (· ≤ ·))

/-- The error message built by `validate_requested_pages` in
`utils.rs`: the problematic values joined by a comma, then the valid
range. -/
def mkPageError (l : List Nat) (total : Nat) : String :=
  "Invalid requested page(s): " ++ String.intercalate (", ") (l.map toString) ++
    ". The page numbers must be between 1 and " ++ toString total ++ "."

/-- Model of `utils::validate_requested_pages`: an empty request is
accepted with an empty set, a request containing `0` or a value above
`total` is rejected with a message listing the sorted, deduplicated
problematic values, and otherwise the 1-based values are converted to a
set of 0-based indices. -/
def validate_requested_pages (requested : List Nat) (total : Nat) :
    Except String (Finset Nat) :=
  if requested = [] then .ok ∅
  else
    let problematic := requested.filter (fun p => p == 0 || decide (total < p))
    if problematic = [] then .ok ((requested.map (fun p => p - 1)).toFinset)
    else .error (mkPageError (sortDedupRust problematic) total)

/-- Page-selection step of `load_pdf_and_pages` in `main.rs`: an empty
request list is mapped to `none` (no filtering at all), otherwise the
validated set is used. -/
def selectPages (pages : List Nat) (total : Nat) :
    Except String (Option (Finset Nat)) :=
  if pages = [] then .ok none
  else (validate_requested_pages pages total).map some

/-- The drivers' per-page filter:
`page_set.map(|set| set.contains(idx)).unwrap_or(true)`. -/
def isSelected (sel : Option (Finset Nat)) (idx : Nat) : Bool :=
  (sel.map (fun s => decide (idx ∈ s))).getD true

/-- The 0-based indices a conversion driver keeps, in document order:
`pages().iter().enumerate()` filtered by `isSelected`. -/
def selectedIndices (sel : Option (Finset Nat)) (total : Nat) : List Nat :=
  (List.range total).filter (fun idx => isSelected sel idx)

/-- Characters the sanitizer keeps verbatim, as in `utils.rs`:
`c.is_ascii_alphanumeric() || c == '-' || c == '_' || c == '.'`
(Lean's `Char.isAlphanum` tests exactly the ASCII ranges). -/
def keepChar (c : Char) : Bool :=
  c.isAlphanum || c == '-' || c == '_' || c == '.'

/-- First pass of `sanitize_prefix_raw`: kept characters are copied and
every run of dropped characters contributes one `-`; the boolean
argument is the source's `last_was_sep` flag. -/
def scanChars : List Char → Bool → List Char
  | [], _ => []
  | c :: cs, lastSep =>
    if keepChar c then c :: scanChars cs false
    else if lastSep then scanChars cs lastSep
    else '-' :: scanChars cs true

/-- Rust `str::trim_matches('-')`: drop leading and trailing `-`. -/
def trimSep (l : List Char) : List Char :=
  ((l.dropWhile (fun c => c == '-')).reverse.dropWhile (fun c => c == '-')).reverse

/-- Final pass of `sanitize_prefix_raw`: collapse internal runs of `-`;
the boolean argument is the source's `prev_sep` flag. -/
def collapseSep : List Char → Bool → List Char
  | [], _ => []
  | c :: cs, prevSep =>
    if c = '-' then
      if prevSep then collapseSep cs prevSep else '-' :: collapseSep cs true
    else c :: collapseSep cs false

/-- Model of `utils::sanitize_prefix_raw` at the character-list level:
scan, trim separators at both ends, and (when non-empty) collapse the
separator runs the trimming can expose. -/
def sanitizeList (l : List Char) : List Char :=
  let trimmed := trimSep (scanChars l false)
  if trimmed = [] then [] else collapseSep trimmed false

/-- Model of `utils::sanitize_prefix_raw`. -/
def sanitize_prefix_raw (s : String) : String :=
  String.mk (sanitizeList s.data)

/-- Specification form of the first pass: each maximal run of dropped
characters becomes a single `-`. -/
def specScan : List Char → List Char
  | [] => []
  | c :: cs =>
    if keepChar c then c :: specScan cs
    else '-' :: specScan (cs.dropWhile (fun a => !keepChar a))
termination_by l => l.length
decreasing_by
  · simp
  · have : (cs.dropWhile (fun a => !keepChar a)).length ≤ cs.length := by
      induction cs with
      | nil => simp
      | cons d ds ih =>
        rw [List.dropWhile_cons]
        split
        · exact Nat.le_trans ih (by simp)
        · simp
    simpa using Nat.lt_succ_of_le this

/-- The pre-sanitization candidate of `resolve_prefix` in `utils.rs`:
the user-supplied value when present, otherwise the input path's file
stem (an opaque value supplied by the standard library, here passed in
directly) with the literal `rendered` as fallback for stemless paths. -/
def prefixCandidate (p stem : Option (List Char)) : List Char :=
  match p with
  | some x => x
  | none => stem.getD (("rendered").data)

/-- Model of `utils::resolve_prefix` at the character-list level:
sanitize the candidate, fall back to `rendered` when the result is
empty, and append a trailing `-` unless one is already present. -/
def resolvePrefixList (p stem : Option (List Char)) : List Char :=
  let base := sanitizeList (prefixCandidate p stem)
  let base := if base = [] then ("rendered").data else base
  if base.getLast? = some '-' then base else base ++ ['-']

/-- Output filename for one page, from `process_png`/`process_svg`:
`{prefix}{idx + 1}.{ext}`. -/
def outName (pfx : String) (idx : Nat) (ext : String) : String :=
  pfx ++ toString (idx + 1) ++ "." ++ ext

/-- The PNG driver's writes in `main.rs`: enumerate, filter by the
selection, render and write each kept page in order; the reported count
is the length of the collected vector. -/
def process_png_run (total : Nat) (sel : Option (Finset Nat)) (pfx : String) :
    List String × Nat :=
  let written := ((List.range total).filter (fun idx => isSelected sel idx)).map
    (fun idx => outName pfx idx ("png"))
  (written, written.length)

/-- The SVG driver's writes in `main.rs`: a `for` loop over the
enumerated pages with a `continue` on filtered-out pages and an
explicit `files_written` counter. -/
def process_svg_run (total : Nat) (sel : Option (Finset Nat)) (pfx : String) :
    List String × Nat :=
  (List.range total).foldl
    (fun acc idx =>
      if isSelected sel idx then
        (acc.1 ++ [outName pfx idx ("svg")], acc.2 + 1)
      else acc)
    ([], 0)

/-- The tagged `FileSystem` error built for a failed page write,
matching the `map_err` calls of `process_png` and `process_svg`. -/
def mkWriteError (kind e : String) : AppError :=
  ⟨"FileSystem", "Failed to write " ++ kind ++ ": " ++ e⟩

/-- Driver iteration with a fallible filesystem: process the given
page indices in order; the first failing write stops the run with a
tagged `FileSystem` error (the `?` operator inside the iteration),
later pages are not rendered or written.  The result is the list of
indices actually written and the optional error. -/
def runWrites (writeErr : Nat → Option String) (kind : String) :
    List Nat → List Nat × Option AppError
  | [] => ([], none)
  | i :: rest =>
    match writeErr i with
    | some e => ([], some (mkWriteError kind e))
    | none =>
      let r := runWrites writeErr kind rest
      (i :: r.1, r.2)

/-- A concrete fallible filesystem for evaluation: page index 1 fails
to write, every other page succeeds. -/
def weExample : Nat → Option String :=
  fun i => if i = 1 then some ("disk full") else none

/-- `process_png` with an explicit fallible filesystem. -/
def process_png_io (total : Nat) (sel : Option (Finset Nat))
    (writeErr : Nat → Option String) : List Nat × Option AppError :=
  runWrites writeErr ("PNG") (selectedIndices sel total)

/-- `process_svg` with an explicit fallible filesystem. -/
def process_svg_io (total : Nat) (sel : Option (Finset Nat))
    (writeErr : Nat → Option String) : List Nat × Option AppError :=
  runWrites writeErr ("SVG") (selectedIndices sel total)

/-- First index at which `pat` occurs as a contiguous substring,
modelling Rust `str::find` for a string or character pattern. -/
def findSubstr? (pat : List Char) : List Char → Option Nat
  | [] => if pat.isPrefixOf ([] : List Char) then some 0 else none
  | c :: rest =>
    if pat.isPrefixOf (c :: rest) then some 0
    else (findSubstr? pat rest).map (fun i => i + 1)

/-- Numeric value of a digit string, most significant digit first. -/
def digitsToNat (l : List Char) : Nat :=
  l.foldl (fun a c => a * 10 + (c.toNat - 48)) 0

/-- Unsigned decimal fragment of Rust `str::parse::<f32>`: digits with
at most one decimal point and at least one digit overall.  Exponent
forms, `inf` and `NaN` are not modelled; on this fragment the value is
an exact decimal, so `ℚ` stands in for `f32`. -/
def parseUDec (l : List Char) : Option ℚ :=
  let intPart := l.takeWhile (fun c => c != '.')
  match l.dropWhile (fun c => c != '.') with
  | [] =>
    if !intPart.isEmpty && intPart.all Char.isDigit then
      some (digitsToNat intPart)
    else none
  | _ :: frac =>
    if (!intPart.isEmpty || !frac.isEmpty) && intPart.all Char.isDigit &&
        frac.all Char.isDigit then
      some ((digitsToNat intPart : ℚ) + (digitsToNat frac : ℚ) / (10 : ℚ) ^ frac.length)
    else none

/-- Signed decimal fragment of Rust `str::parse::<f32>`. -/
def parseDec (l : List Char) : Option ℚ :=
  match l with
  | '-' :: rest => (parseUDec rest).map (fun q => -q)
  | '+' :: rest => parseUDec rest
  | _ => parseUDec l

/-- Decimal digits of a natural number. -/
def natDigits (n : Nat) : List Char := (toString n).data

/-- Fractional part zero-padded to 6 digits. -/
def pad6 (n : Nat) : List Char :=
  List.replicate (6 - (natDigits n).length) '0' ++ natDigits n

/-- Rust `format!("{:.6}", x)`: sign, integer part and six decimal
digits, rounding to nearest (ties cannot arise for the exact decimal
values this development evaluates). -/
def format6 (q : ℚ) : List Char :=
  let n : Nat := (Int.floor (|q| * 1000000 + 1 / 2)).toNat
  (if q < 0 then ['-'] else []) ++ natDigits (n / 1000000) ++ ['.'] ++ pad6 (n % 1000000)

/-- One attribute rewrite of `process_svg` in `main.rs`: find the first
occurrence of `pat`, find the closing quote after it, parse the value
between them, multiply by `scale` and splice the reformatted product
back in; the markup is returned unchanged when the pattern or quote is
missing or the value does not parse. -/
def rescaleSubstr (pat : List Char) (scale : ℚ) (l : List Char) : List Char :=
  match findSubstr? pat l with
  | none => l
  | some wpos =>
    let start := wpos + pat.length
    match (l.drop start).findIdx? (fun c => c == '"') with
    | none => l
    | some relEnd =>
      match parseDec ((l.drop start).take relEnd) with
      | none => l
      | some v =>
        l.take start ++ format6 (v * scale) ++ l.drop (start + relEnd)

/-- `f32::EPSILON`. -/
def f32Eps : ℚ := 1 / 2 ^ 23

/-- SVG post-processing of `process_svg`: when `scale` differs from
`1.0` by more than `f32::EPSILON`, rewrite the first `width="..."` and
then the first `height="..."` value; otherwise the markup is written
unchanged. -/
def rescaleSvg (l : List Char) (scale : ℚ) : List Char :=
  if |scale - 1| > f32Eps then
    rescaleSubstr (("height=\"").data) scale (rescaleSubstr (("width=\"").data) scale l)
  else l

theorem mem_dedupAdj : ∀ (l : List Nat) (a : Nat), a ∈ dedupAdj l ↔ a ∈ l
  | [], a => by simp [dedupAdj]
  | [b], a => by simp [dedupAdj]
  | b :: c :: rest, a => by
    by_cases h : b = c
    · subst h
      simp [dedupAdj, mem_dedupAdj (b :: rest) a]
    · simp [dedupAdj, h, mem_dedupAdj (c :: rest) a]

theorem sorted_lt_dedupAdj :
    ∀ l : List Nat, l.Sorted (· ≤ ·) → (dedupAdj l).Sorted (· < ·)
  | [], _ => by simp [dedupAdj]
  | [a], _ => by simp [dedupAdj]
  | a :: b :: rest, h => by
    rw [List.sorted_cons] at h
    obtain ⟨hab, hrest⟩ := h
    by_cases hEq : a = b
    · subst hEq
      simpa [dedupAdj] using sorted_lt_dedupAdj (a :: rest) hrest
    · rw [dedupAdj, if_neg hEq, List.sorted_cons]
      refine ⟨?_, sorted_lt_dedupAdj (b :: rest) hrest⟩
      intro x hx
      rw [mem_dedupAdj] at hx
      have hax : a ≤ x := hab x hx
      have hbx : b ≤ x := by
        rw [List.mem_cons] at hx
        rcases hx with rfl | hx
        · omega
        · exact (List.sorted_cons.mp hrest).1 x hx
      have hab' : a ≤ b := hab b (by simp)
      omega

/-- C1: a non-empty request whose every entry lies in `1..=total` is
accepted, the returned set is exactly the 0-based image of the request
(duplicates collapsing), and every returned index is below `total`;
in particular a duplicated valid request collapses to one index. -/
theorem C1_valid_request_ok (requested : List Nat) (total : Nat)
    (hne : requested ≠ []) (hval : ∀ p ∈ requested, 1 ≤ p ∧ p ≤ total) :
    (∃ S, validate_requested_pages requested total = .ok S ∧
      (∀ i, i ∈ S ↔ ∃ p ∈ requested, p - 1 = i) ∧
      (∀ i ∈ S, i < total)) ∧
    validate_requested_pages [3, 3] 3 = .ok ({2} : Finset Nat) := by
  constructor
  · have hfil : requested.filter (fun p => p == 0 || decide (total < p)) = [] := by
      rw [List.filter_eq_nil_iff]
      intro p hp
      have := hval p hp
      simp only [Bool.or_eq_true, beq_iff_eq, decide_eq_true_eq, not_or]
      omega
    refine ⟨(requested.map (fun p => p - 1)).toFinset, ?_, ?_, ?_⟩
    · simp [validate_requested_pages, hne, hfil]
    · intro i
      simp [List.mem_toFinset, List.mem_map]
    · intro i hi
      simp only [List.mem_toFinset, List.mem_map] at hi
      obtain ⟨p, hp, rfl⟩ := hi
      have := hval p hp
      omega
  · rfl

/-- Witness for C1 at the concrete input `[3, 3]`, `total = 3`. -/
theorem C1_valid_request_ok_witness :
    (∃ S, validate_requested_pages [3, 3] 3 = .ok S ∧
      (∀ i, i ∈ S ↔ ∃ p ∈ [3, 3], p - 1 = i) ∧
      (∀ i ∈ S, i < 3)) ∧
    validate_requested_pages [3, 3] 3 = .ok ({2} : Finset Nat) :=
  C1_valid_request_ok [3, 3] 3 (by decide) (by decide)

/-- C2: a non-empty request containing a `0` or an out-of-range value is
rejected with the single message that enumerates the distinct
problematic values in ascending order and states the range `1..total`;
in particular `[0, 6, 6]` against `total = 5` reports exactly `0, 6`. -/
theorem C2_invalid_request_error (requested : List Nat) (total : Nat)
    (hne : requested ≠ []) (hbad : ∃ p ∈ requested, p = 0 ∨ total < p) :
    (∃ l, validate_requested_pages requested total = .error (mkPageError l total) ∧
      l.Sorted (· < ·) ∧
      (∀ p, p ∈ l ↔ p ∈ requested ∧ (p = 0 ∨ total < p))) ∧
    validate_requested_pages [0, 6, 6] 5 =
      .error ("Invalid requested page(s): 0, 6. The page numbers must be between 1 and 5.") := by
  constructor
  · obtain ⟨p, hp, hpbad⟩ := hbad
    have hmem : p ∈ requested.filter (fun p => p == 0 || decide (total < p)) := by
      rw [List.mem_filter]
      refine ⟨hp, ?_⟩
      simp only [Bool.or_eq_true, beq_iff_eq, decide_eq_true_eq]
      exact hpbad
    have hfil : requested.filter (fun p => p == 0 || decide (total < p)) ≠ [] := by
      intro h
      rw [h] at hmem
      exact List.not_mem_nil p hmem
    refine ⟨sortDedupRust (requested.filter (fun p => p == 0 || decide (total < p))),
      ?_, ?_, ?_⟩
    · simp [validate_requested_pages, hne, hfil]
    · exact sorted_lt_dedupAdj _ (List.sorted_insertionSort (· ≤ ·) _)
    · intro q
      rw [sortDedupRust, mem_dedupAdj, (List.perm_insertionSort (· ≤ ·) _).mem_iff,
        List.mem_filter]
      simp only [Bool.or_eq_true, beq_iff_eq, decide_eq_true_eq]
  · rfl

/-- Witness for C2 at the concrete input `[0, 6, 6]`, `total = 5`. -/
theorem C2_invalid_request_error_witness :
    (∃ l, validate_requested_pages [0, 6, 6] 5 = .error (mkPageError l 5) ∧
      l.Sorted (· < ·) ∧
      (∀ p, p ∈ l ↔ p ∈ [0, 6, 6] ∧ (p = 0 ∨ 5 < p))) ∧
    validate_requested_pages [0, 6, 6] 5 =
      .error ("Invalid requested page(s): 0, 6. The page numbers must be between 1 and 5.") :=
  C2_invalid_request_error [0, 6, 6] 5 (by decide) ⟨0, by decide, by decide⟩

theorem strExt {a b : String} (h : a.data = b.data) : a = b := by
  cases a
  cases b
  exact congrArg String.mk h

/-- C9: against a zero-page document every non-empty request is
rejected, and the message states the (empty) valid range as
`between 1 and 0`. -/
theorem C9_zero_total_error (requested : List Nat) (hne : requested ≠ []) :
    ∃ pre, validate_requested_pages requested 0 =
      .error (pre ++ "between 1 and 0.") := by
  have hfil : requested.filter (fun p => p == 0 || decide (0 < p)) = requested := by
    rw [List.filter_eq_self]
    intro p hp
    simp only [Bool.or_eq_true, beq_iff_eq, decide_eq_true_eq]
    omega
  have hfne : requested.filter (fun p => p == 0 || decide (0 < p)) ≠ [] := by
    rw [hfil]
    exact hne
  refine ⟨"Invalid requested page(s): " ++
    String.intercalate (", ") ((sortDedupRust requested).map toString) ++
    ". The page numbers must be ", ?_⟩
  have hval : validate_requested_pages requested 0 =
      .error (mkPageError (sortDedupRust requested) 0) := by
    simp [validate_requested_pages, hne, hfil, hfne]
  rw [hval]
  congr 1
  apply strExt
  simp only [mkPageError, String.data_append, List.append_assoc]
  have hlit : (". The page numbers must be between 1 and ").data ++
      ((toString (0 : Nat)).data ++ (".").data) =
      (". The page numbers must be ").data ++ ("between 1 and 0.").data := by
    decide
  rw [hlit]

/-- Witness for C9 at the concrete input `[7]`. -/
theorem C9_zero_total_error_witness :
    ∃ pre, validate_requested_pages [7] 0 = .error (pre ++ "between 1 and 0.") :=
  C9_zero_total_error [7] (by decide)

/-- C5: an empty request produces the `All` selection (`none`), under
which the driver keeps every page of the document in order; in
particular all 5 pages of a 5-page document are selected. -/
theorem C5_empty_request_all (total : Nat) :
    selectPages [] total = .ok none ∧
    selectedIndices none total = List.range total ∧
    selectPages [] 5 = .ok none ∧
    selectedIndices none 5 = [0, 1, 2, 3, 4] := by
  refine ⟨rfl, ?_, rfl, by decide⟩
  rw [selectedIndices, List.filter_eq_self]
  intro a _
  rfl

theorem keep_of_mem_scanChars :
    ∀ (l : List Char) (b : Bool) (c : Char), c ∈ scanChars l b → keepChar c = true
  | [], b, c, h => by simp [scanChars] at h
  | a :: t, b, c, h => by
    rw [scanChars] at h
    by_cases hk : keepChar a = true
    · rw [if_pos hk, List.mem_cons] at h
      rcases h with rfl | h
      · exact hk
      · exact keep_of_mem_scanChars t false c h
    · rw [if_neg hk] at h
      by_cases hb : b = true
      · rw [if_pos hb] at h
        exact keep_of_mem_scanChars t b c h
      · rw [if_neg hb, List.mem_cons] at h
        rcases h with rfl | h
        · decide
        · exact keep_of_mem_scanChars t true c h

theorem scanChars_eq_specScan :
    ∀ l : List Char, scanChars l false = specScan l ∧
      scanChars l true = specScan (l.dropWhile (fun a => !keepChar a)) := by
  intro l
  induction l with
  | nil => constructor <;> simp [scanChars, specScan]
  | cons c cs ih =>
    by_cases hk : keepChar c = true
    · constructor
      · simp [scanChars, specScan, hk, ih.1]
      · rw [List.dropWhile_cons_of_neg (by simp [hk])]
        simp [scanChars, specScan, hk, ih.1]
    · constructor
      · simp [scanChars, specScan, hk, ih.2]
      · rw [List.dropWhile_cons_of_pos (by simp [hk])]
        simp [scanChars, specScan, hk, ih.2]

theorem head_dropWhile_false {α} (p : α → Bool) (l : List α) {a : α}
    (h : (l.dropWhile p).head? = some a) : p a = false := by
  have hm := List.head?_dropWhile_not p l
  rw [h] at hm
  exact hm

theorem getLast?_cons_ne {α} (a : α) {l : List α} (h : l ≠ []) :
    (a :: l).getLast? = l.getLast? := by
  cases l with
  | nil => exact absurd rfl h
  | cons b t => exact List.getLast?_cons_cons

theorem getLast?_dropWhile_ne {α} (p : α → Bool) :
    ∀ l : List α, l.dropWhile p ≠ [] → (l.dropWhile p).getLast? = l.getLast?
  | [], h => by simp at h
  | a :: t, h => by
    by_cases hp : p a = true
    · rw [List.dropWhile_cons_of_pos hp] at h ⊢
      have ht : t ≠ [] := by
        intro hte
        rw [hte] at h
        simp at h
      rw [getLast?_dropWhile_ne p t h, getLast?_cons_ne a ht]
    · rw [List.dropWhile_cons_of_neg (by simp [hp])]

theorem trimSep_last {l : List Char} {c : Char}
    (h : (trimSep l).getLast? = some c) : c ≠ '-' := by
  rw [trimSep, List.getLast?_reverse] at h
  have := head_dropWhile_false _ _ h
  simpa using this

theorem trimSep_head {l : List Char} {c : Char}
    (h : (trimSep l).head? = some c) : c ≠ '-' := by
  rw [trimSep, List.head?_reverse] at h
  have hne : (l.dropWhile (fun c => c == '-')).reverse.dropWhile (fun c => c == '-') ≠ [] := by
    intro he
    rw [he] at h
    simp at h
  rw [getLast?_dropWhile_ne _ _ hne, List.getLast?_reverse] at h
  have := head_dropWhile_false _ _ h
  simpa using this

theorem collapseSep_sep_true (t : List Char) :
    collapseSep ('-' :: t) true = collapseSep t true := by
  simp [collapseSep]

theorem collapseSep_sep_false (t : List Char) :
    collapseSep ('-' :: t) false = '-' :: collapseSep t true := by
  simp [collapseSep]

theorem collapseSep_cons_of_ne {a : Char} (ha : a ≠ '-') (t : List Char) (b : Bool) :
    collapseSep (a :: t) b = a :: collapseSep t false := by
  cases b <;> simp [collapseSep, ha]

theorem mem_collapseSep :
    ∀ (l : List Char) (b : Bool) (c : Char), c ∈ collapseSep l b → c ∈ l
  | [], b, c, h => by simp [collapseSep] at h
  | a :: t, b, c, h => by
    by_cases ha : a = '-'
    · subst ha
      cases b with
      | true =>
        rw [collapseSep_sep_true] at h
        exact List.mem_cons_of_mem _ (mem_collapseSep t true c h)
      | false =>
        rw [collapseSep_sep_false, List.mem_cons] at h
        rcases h with rfl | h
        · exact List.mem_cons_self _ _
        · exact List.mem_cons_of_mem _ (mem_collapseSep t true c h)
    · rw [collapseSep_cons_of_ne ha, List.mem_cons] at h
      rcases h with rfl | h
      · exact List.mem_cons_self _ _
      · exact List.mem_cons_of_mem _ (mem_collapseSep t false c h)

theorem collapseSep_getLast :
    ∀ (l : List Char) (b : Bool) (c : Char), l.getLast? = some c → c ≠ '-' →
      (collapseSep l b).getLast? = some c
  | [], b, c, h, hc => by simp at h
  | [a], b, c, h, hc => by
    simp at h
    subst h
    rw [collapseSep_cons_of_ne hc]
    rfl
  | a :: d :: t, b, c, h, hc => by
    rw [List.getLast?_cons_cons] at h
    have htail : ∀ b', (collapseSep (d :: t) b').getLast? = some c :=
      fun b' => collapseSep_getLast (d :: t) b' c h hc
    have hne : ∀ b', collapseSep (d :: t) b' ≠ [] := by
      intro b' he
      have := htail b'
      rw [he] at this
      simp at this
    by_cases ha : a = '-'
    · subst ha
      cases b with
      | true =>
        rw [collapseSep_sep_true]
        exact htail true
      | false =>
        rw [collapseSep_sep_false, getLast?_cons_ne _ (hne true)]
        exact htail true
    · rw [collapseSep_cons_of_ne ha, getLast?_cons_ne _ (hne false)]
      exact htail false

theorem collapseSep_chain :
    ∀ (l : List Char) (b : Bool),
      (b = true → (collapseSep l b).head? ≠ some '-') ∧
        (collapseSep l b).Chain' (fun x y => ¬(x = '-' ∧ y = '-'))
  | [], b => by simp [collapseSep]
  | a :: t, b => by
    by_cases ha : a = '-'
    · subst ha
      cases b with
      | true =>
        rw [collapseSep_sep_true]
        exact ⟨fun _ => ((collapseSep_chain t true).1 rfl), (collapseSep_chain t true).2⟩
      | false =>
        rw [collapseSep_sep_false]
        constructor
        · intro h
          cases h
        · rw [List.chain'_cons']
          refine ⟨?_, (collapseSep_chain t true).2⟩
          intro y hy
          have hhead := (collapseSep_chain t true).1 rfl
          intro hcon
          rw [Option.mem_def] at hy
          rw [hy] at hhead
          exact hhead (by rw [hcon.2])
    · rw [collapseSep_cons_of_ne ha]
      constructor
      · intro _
        simp only [List.head?_cons]
        intro hcon
        exact ha (by injection hcon)
      · rw [List.chain'_cons']
        refine ⟨?_, (collapseSep_chain t false).2⟩
        intro y _
        intro hcon
        exact ha hcon.1

theorem sanitizeList_mem_keep {l : List Char} {c : Char}
    (h : c ∈ sanitizeList l) : keepChar c = true := by
  rw [sanitizeList] at h
  by_cases ht : trimSep (scanChars l false) = []
  · rw [if_pos ht] at h
    simp at h
  · rw [if_neg ht] at h
    have h2 : c ∈ trimSep (scanChars l false) := mem_collapseSep _ _ _ h
    have h3 : c ∈ scanChars l false := by
      rw [trimSep, List.mem_reverse] at h2
      have h4 := (List.dropWhile_sublist _ (l := (scanChars l false).dropWhile (fun c => c == '-') |>.reverse)).mem h2
      rw [List.mem_reverse] at h4
      exact (List.dropWhile_sublist _).mem h4
    exact keep_of_mem_scanChars _ _ _ h3

theorem sanitizeList_head (l : List Char) :
    (sanitizeList l).head? ≠ some '-' := by
  rw [sanitizeList]
  by_cases ht : trimSep (scanChars l false) = []
  · rw [if_pos ht]
    simp
  · rw [if_neg ht]
    obtain ⟨a, t, he⟩ := List.exists_cons_of_ne_nil ht
    have ha : a ≠ '-' := trimSep_head (by rw [he]; rfl)
    rw [he]
    simp only [collapseSep]
    rw [if_neg ha]
    simp only [List.head?_cons]
    intro hcon
    exact ha (by injection hcon)

theorem sanitizeList_last (l : List Char) :
    (sanitizeList l).getLast? ≠ some '-' := by
  rw [sanitizeList]
  by_cases ht : trimSep (scanChars l false) = []
  · rw [if_pos ht]
    simp
  · rw [if_neg ht]
    have hsome : ∃ c, (trimSep (scanChars l false)).getLast? = some c := by
      cases hgl : (trimSep (scanChars l false)).getLast? with
      | none => exact absurd (List.getLast?_eq_none_iff.mp hgl) ht
      | some c => exact ⟨c, rfl⟩
    obtain ⟨c, hc⟩ := hsome
    have hcne : c ≠ '-' := trimSep_last hc
    rw [collapseSep_getLast _ false c hc hcne]
    intro hcon
    exact hcne (by injection hcon)

theorem sanitizeList_chain (l : List Char) :
    (sanitizeList l).Chain' (fun x y => ¬(x = '-' ∧ y = '-')) := by
  rw [sanitizeList]
  by_cases ht : trimSep (scanChars l false) = []
  · rw [if_pos ht]
    simp
  · rw [if_neg ht]
    exact (collapseSep_chain _ false).2

/-- C3: the sanitizer only emits ASCII alphanumerics, `.`, `_` and `-`,
never two adjacent `-`, never a leading or trailing `-`, and its first
pass collapses every maximal run of dropped characters into one `-`. -/
theorem C3_sanitize_shape (s : String) :
    (∀ c ∈ (sanitize_prefix_raw s).data,
      c.isAlphanum = true ∨ c = '.' ∨ c = '_' ∨ c = '-') ∧
    (sanitize_prefix_raw s).data.Chain' (fun x y => ¬(x = '-' ∧ y = '-')) ∧
    (sanitize_prefix_raw s).data.head? ≠ some '-' ∧
    (sanitize_prefix_raw s).data.getLast? ≠ some '-' ∧
    scanChars s.data false = specScan s.data := by
  have hdata : (sanitize_prefix_raw s).data = sanitizeList s.data := rfl
  refine ⟨?_, ?_, ?_, ?_, (scanChars_eq_specScan s.data).1⟩
  · intro c hc
    rw [hdata] at hc
    have hk := sanitizeList_mem_keep hc
    rw [keepChar] at hk
    simp only [Bool.or_eq_true, beq_iff_eq] at hk
    tauto
  · rw [hdata]
    exact sanitizeList_chain _
  · rw [hdata]
    exact sanitizeList_head _
  · rw [hdata]
    exact sanitizeList_last _

/-- C4: `resolve_prefix` always returns a non-empty name ending in
exactly one trailing `-`; an empty sanitization result falls back to
`rendered-`, a stem of `Report 2024` gives `Report-2024-`, and a user
prefix of `a//b` gives `a-b-`. -/
theorem C4_resolve_trailing_sep (p stem : Option (List Char)) :
    resolvePrefixList p stem ≠ [] ∧
    (∃ core, resolvePrefixList p stem = core ++ ['-'] ∧ core.getLast? ≠ some '-') ∧
    (sanitizeList (prefixCandidate p stem) = [] →
      resolvePrefixList p stem = ("rendered-").data) ∧
    resolvePrefixList (some (("").data)) stem = ("rendered-").data ∧
    resolvePrefixList none (some (("Report 2024").data)) = ("Report-2024-").data ∧
    resolvePrefixList (some (("a//b").data)) stem = ("a-b-").data := by
  have hsplit : ∃ core, resolvePrefixList p stem = core ++ ['-'] ∧
      core.getLast? ≠ some '-' ∧
      (sanitizeList (prefixCandidate p stem) = [] → core = ("rendered").data) := by
    by_cases h0 : sanitizeList (prefixCandidate p stem) = []
    · refine ⟨("rendered").data, ?_, by decide, fun _ => rfl⟩
      simp only [resolvePrefixList]
      rw [if_pos h0, if_neg (by decide)]
    · refine ⟨sanitizeList (prefixCandidate p stem), ?_,
        sanitizeList_last _, fun h => absurd h h0⟩
      simp only [resolvePrefixList]
      rw [if_neg h0, if_neg (sanitizeList_last _)]
  obtain ⟨core, hc, hcl, hr⟩ := hsplit
  refine ⟨?_, ⟨core, hc, hcl⟩, ?_, by rfl, by rfl, by rfl⟩
  · rw [hc]
    simp
  · intro h0
    rw [hc, hr h0]
    decide

/-- Witness for C3 at the concrete string `a b!`. -/
theorem C3_sanitize_shape_witness :
    (sanitize_prefix_raw ("a b!")).data.head? ≠ some '-' :=
  (C3_sanitize_shape ("a b!")).2.2.1

/-- Witness for C4 at an empty user prefix. -/
theorem C4_resolve_trailing_sep_witness :
    resolvePrefixList (some (("").data)) none = ("rendered-").data :=
  (C4_resolve_trailing_sep (some (("").data)) none).2.2.1 (by rfl)

theorem outName_png (pfx : String) (i : Nat) :
    outName pfx i ("png") = pfx ++ toString (i + 1) ++ ".png" := by
  apply strExt
  simp only [outName, String.data_append, List.append_assoc]
  refine congrArg (fun x => pfx.data ++ x) ?_
  refine congrArg (fun x => (toString (i + 1)).data ++ x) ?_
  decide

theorem outName_svg (pfx : String) (i : Nat) :
    outName pfx i ("svg") = pfx ++ toString (i + 1) ++ ".svg" := by
  apply strExt
  simp only [outName, String.data_append, List.append_assoc]
  refine congrArg (fun x => pfx.data ++ x) ?_
  refine congrArg (fun x => (toString (i + 1)).data ++ x) ?_
  decide

theorem svg_foldl_spec (sel : Option (Finset Nat)) (pfx : String) :
    ∀ (l : List Nat) (acc : List String × Nat),
      l.foldl
        (fun acc idx =>
          if isSelected sel idx then
            (acc.1 ++ [outName pfx idx ("svg")], acc.2 + 1)
          else acc) acc =
      (acc.1 ++ (l.filter (fun idx => isSelected sel idx)).map
          (fun idx => outName pfx idx ("svg")),
        acc.2 + (l.filter (fun idx => isSelected sel idx)).length)
  | [], acc => by simp
  | i :: t, acc => by
    by_cases hi : isSelected sel i = true
    · rw [List.foldl_cons, if_pos hi, svg_foldl_spec sel pfx t _,
        List.filter_cons_of_pos hi]
      refine Prod.ext ?_ ?_
      · simp [List.append_assoc]
      · show acc.2 + 1 + (List.filter (fun idx => isSelected sel idx) t).length =
          acc.2 + (i :: List.filter (fun idx => isSelected sel idx) t).length
        simp only [List.length_cons]
        omega
    · rw [List.foldl_cons, if_neg hi, svg_foldl_spec sel pfx t acc,
        List.filter_cons_of_neg hi]

/-- C6: both drivers process pages in ascending document order, write
exactly one file per selected page named `{prefix}{page}.{ext}` with the
format's extension, skip exactly the pages outside a non-`All`
selection, and report a count equal to the number of selected pages. -/
theorem C6_driver_names_count (total : Nat) (sel : Option (Finset Nat)) (pfx : String) :
    (process_png_run total sel pfx).1 =
      (selectedIndices sel total).map (fun i => pfx ++ toString (i + 1) ++ ".png") ∧
    (process_svg_run total sel pfx).1 =
      (selectedIndices sel total).map (fun i => pfx ++ toString (i + 1) ++ ".svg") ∧
    (process_png_run total sel pfx).2 = (selectedIndices sel total).length ∧
    (process_svg_run total sel pfx).2 = (selectedIndices sel total).length ∧
    (selectedIndices sel total).Sorted (· < ·) ∧
    (∀ i, i ∈ selectedIndices sel total ↔ i < total ∧ ∀ s, sel = some s → i ∈ s) := by
  have hsvg := svg_foldl_spec sel pfx (List.range total) ([], 0)
  refine ⟨?_, ?_, ?_, ?_, ?_, ?_⟩
  · rw [process_png_run]
    simp only [selectedIndices]
    exact List.map_congr_left (fun i _ => outName_png pfx i)
  · rw [process_svg_run, hsvg]
    simp only [selectedIndices, List.nil_append]
    exact List.map_congr_left (fun i _ => outName_svg pfx i)
  · rw [process_png_run]
    simp [selectedIndices]
  · rw [process_svg_run, hsvg]
    simp [selectedIndices]
  · exact List.Pairwise.sublist (List.filter_sublist _) (List.sorted_lt_range total)
  · intro i
    rw [selectedIndices, List.mem_filter, List.mem_range]
    cases sel with
    | none => simp [isSelected]
    | some s => simp [isSelected]

/-- Witness for C6 at `total = 3`, selection `{1}`, prefix `doc-`. -/
theorem C6_driver_names_count_witness :
    (process_png_run 3 (some ({1} : Finset Nat)) ("doc-")).2 =
      (selectedIndices (some ({1} : Finset Nat)) 3).length :=
  (C6_driver_names_count 3 (some ({1} : Finset Nat)) ("doc-")).2.2.1

theorem runWrites_prefix_spec (we : Nat → Option String) (kind : String) :
    ∀ (T : List Nat) (j : Nat) (rest : List Nat) (e : String),
      (∀ i ∈ T, we i = none) → we j = some e →
      runWrites we kind (T ++ j :: rest) = (T, some (mkWriteError kind e))
  | [], j, rest, e, hT, hj => by
    simp [runWrites, hj]
  | a :: T, j, rest, e, hT, hj => by
    have ha : we a = none := hT a (by simp)
    rw [List.cons_append]
    simp only [runWrites, ha]
    rw [runWrites_prefix_spec we kind T j rest e
      (fun i hi => hT i (List.mem_cons_of_mem _ hi)) hj]

/-- C8: when some selected page fails to write, both drivers surface a
tagged `FileSystem` error built from the first failing page; the pages
actually written are exactly the selected pages strictly before it in
document order, and no later page is processed. -/
theorem C8_write_failure_fatal (total : Nat) (sel : Option (Finset Nat))
    (we : Nat → Option String)
    (h : ∃ i ∈ selectedIndices sel total, (we i).isSome) :
    ∃ j e rest,
      we j = some e ∧
      process_png_io total sel we =
        ((selectedIndices sel total).takeWhile (fun i => (we i).isNone),
          some (mkWriteError ("PNG") e)) ∧
      process_svg_io total sel we =
        ((selectedIndices sel total).takeWhile (fun i => (we i).isNone),
          some (mkWriteError ("SVG") e)) ∧
      selectedIndices sel total =
        (selectedIndices sel total).takeWhile (fun i => (we i).isNone) ++ j :: rest ∧
      (∀ i ∈ (selectedIndices sel total).takeWhile (fun i => (we i).isNone),
        we i = none) := by
  obtain ⟨w, hwmem, hwsome⟩ := h
  have hdrop : (selectedIndices sel total).dropWhile (fun i => (we i).isNone) ≠ [] := by
    intro hd
    have hall : selectedIndices sel total =
        (selectedIndices sel total).takeWhile (fun i => (we i).isNone) := by
      conv_lhs => rw [← List.takeWhile_append_dropWhile
        (p := fun i => (we i).isNone) (l := selectedIndices sel total)]
      rw [hd, List.append_nil]
    rw [hall] at hwmem
    have := List.mem_takeWhile_imp hwmem
    simp only [Option.isNone_iff_eq_none] at this
    rw [this] at hwsome
    simp at hwsome
  obtain ⟨j, rest, hjr⟩ :=
    List.exists_cons_of_ne_nil hdrop
  have hsplitl : selectedIndices sel total =
      (selectedIndices sel total).takeWhile (fun i => (we i).isNone) ++ j :: rest := by
    conv_lhs => rw [← List.takeWhile_append_dropWhile
      (p := fun i => (we i).isNone) (l := selectedIndices sel total)]
    rw [hjr]
  have hj : (we j).isNone = false := by
    have := head_dropWhile_false (fun i => (we i).isNone) (selectedIndices sel total)
      (a := j) (by rw [hjr]; rfl)
    exact this
  obtain ⟨e, he⟩ : ∃ e, we j = some e := by
    cases hwe : we j with
    | none => rw [hwe] at hj; simp at hj
    | some e => exact ⟨e, rfl⟩
  have hT : ∀ i ∈ (selectedIndices sel total).takeWhile (fun i => (we i).isNone),
      we i = none := by
    intro i hi
    have := List.mem_takeWhile_imp hi
    simpa using this
  refine ⟨j, e, rest, he, ?_, ?_, hsplitl, hT⟩
  · rw [process_png_io]
    conv_lhs => rw [hsplitl]
    exact runWrites_prefix_spec we ("PNG") _ j rest e hT he
  · rw [process_svg_io]
    conv_lhs => rw [hsplitl]
    exact runWrites_prefix_spec we ("SVG") _ j rest e hT he

/-- Witness for C8: a 3-page document with no filtering and a
filesystem on which page index 1 fails. -/
theorem C8_write_failure_fatal_witness :
    ∃ j e rest,
      weExample j = some e ∧
      process_png_io 3 none weExample =
        ((selectedIndices none 3).takeWhile (fun i => (weExample i).isNone),
          some (mkWriteError ("PNG") e)) ∧
      process_svg_io 3 none weExample =
        ((selectedIndices none 3).takeWhile (fun i => (weExample i).isNone),
          some (mkWriteError ("SVG") e)) ∧
      selectedIndices none 3 =
        (selectedIndices none 3).takeWhile (fun i => (weExample i).isNone) ++ j :: rest ∧
      (∀ i ∈ (selectedIndices none 3).takeWhile (fun i => (weExample i).isNone),
        weExample i = none) :=
  C8_write_failure_fatal 3 none weExample ⟨1, by decide, by decide⟩

/-- C7: the SVG rescale is the identity when the scale is within
`f32::EPSILON` of `1.0`; a missing or unparseable attribute value is
left untouched without an error; and on markup carrying
`width="100.0" height="50"` a scale of `2.0` produces
`width="200.000000" height="100.000000"`. -/
theorem C7_svg_rescale (svg : List Char) (scale : ℚ) :
    (¬ |scale - 1| > f32Eps → rescaleSvg svg scale = svg) ∧
    (findSubstr? (("width=\"").data) svg = none →
      rescaleSubstr (("width=\"").data) scale svg = svg) ∧
    (∀ wpos relEnd, findSubstr? (("width=\"").data) svg = some wpos →
      (svg.drop (wpos + 7)).findIdx? (fun c => c == '"') = some relEnd →
      parseDec ((svg.drop (wpos + 7)).take relEnd) = none →
      rescaleSubstr (("width=\"").data) scale svg = svg) ∧
    rescaleSvg (("width=\"100.0\" height=\"50\"").data) 2 =
      ("width=\"200.000000\" height=\"100.000000\"").data ∧
    (("width=\"200.000000\"").data) <:+:
      (("width=\"200.000000\" height=\"100.000000\"").data) ∧
    (("height=\"100.000000\"").data) <:+:
      (("width=\"200.000000\" height=\"100.000000\"").data) ∧
    rescaleSvg (("width=\"abc\" height=\"50\"").data) 2 =
      ("width=\"abc\" height=\"100.000000\"").data := by
  refine ⟨?_, ?_, ?_, by with_unfolding_all rfl, ?_, ?_, by with_unfolding_all rfl⟩
  · intro h
    simp only [rescaleSvg]
    rw [if_neg h]
  · intro h
    simp only [rescaleSubstr, h]
  · intro wpos relEnd h1 h2 h3
    have hlen : ((("width=\"").data)).length = 7 := rfl
    simp only [rescaleSubstr, h1, hlen, h2, h3]
  · exact ⟨[], (" height=\"100.000000\"").data, rfl⟩
  · exact ⟨("width=\"200.000000\" ").data, [], rfl⟩

/-- Witness for C7: markup with no `width` attribute is untouched. -/
theorem C7_svg_rescale_witness :
    rescaleSubstr (("width=\"").data) 2 (("abc").data) = ("abc").data :=
  (C7_svg_rescale (("abc").data) 2).2.1 (by rfl)

/-- C10: the rescale keys on the raw substring `width="`, so markup in
which `stroke-width="..."` precedes the `width` attribute has its
stroke width rescaled while the real `width` value is left unchanged. -/
theorem C10_stroke_width_first :
    rescaleSvg (("<rect stroke-width=\"3\" width=\"10\"/>").data) 2 =
      ("<rect stroke-width=\"6.000000\" width=\"10\"/>").data ∧
    findSubstr? (("width=\"").data)
      (("<rect stroke-width=\"3\" width=\"10\"/>").data) = some 13 ∧
    (("width=\"10\"").data) <:+:
      (("<rect stroke-width=\"6.000000\" width=\"10\"/>").data) := by
  refine ⟨by with_unfolding_all rfl, by rfl,
    ⟨("<rect stroke-width=\"6.000000\" ").data, ("/>").data, by rfl⟩⟩

end PdfConverter
